import Mathlib

/-!
# Verification of the cyber-emerging-risk-dashboard pipeline

A shallow embedding, in Lean 4, of the pure computational core of the
`cyber-emerging-risk-dashboard` repository (Python), together with theorems
settling the specification claims about it.

Conventions used throughout:

* Python `datetime` values are modelled as integer timestamps in seconds
  (`Int`); `timedelta.days` is floor division by 86400 (`Int.fdiv`), which is
  exactly Python's normalisation of `timedelta`.
* Python strings are modelled as `List Char` (Python strings are sequences of
  Unicode code points, as is Lean's `Char`); where only equality of strings
  matters we use Lean `String`.
* Python floats appearing in threshold comparisons (`* 1.1`, `* 0.9`, variance)
  are modelled as exact rationals (`ℚ`).
* Effectful library calls (Google search, LLM call, scraping, file I/O) are
  modelled as explicit inputs: the data they would have produced is a parameter
  of the embedded function, and a call that can raise is an `Except` /
  `Option` value.
-/

namespace Dashboard

/-! ## Data model (`data_models.py`) -/

/-- `CyberEventCategory` from `data_models.py`: the classification taxonomy. -/
inductive CyberEventCategory where
  | RANSOMWARE
  | DATA_BREACH
  | PHISHING
  | VULNERABILITY_EXPLOIT
  | STATE_SPONSORED_ATTACK
  | SUPPLY_CHAIN_ATTACK
  | MALWARE
  | INSIDER_THREAT
  | DENIAL_OF_SERVICE
  | OTHER
  deriving DecidableEq, Repr

/-- The `.value` string of each `CyberEventCategory` member. -/
def CyberEventCategory.value : CyberEventCategory → String
  | .RANSOMWARE => "Ransomware"
  | .DATA_BREACH => "Data Breach"
  | .PHISHING => "Phishing"
  | .VULNERABILITY_EXPLOIT => "Vulnerability Exploit"
  | .STATE_SPONSORED_ATTACK => "State-Sponsored Attack"
  | .SUPPLY_CHAIN_ATTACK => "Supply Chain Attack"
  | .MALWARE => "Malware"
  | .INSIDER_THREAT => "Insider Threat"
  | .DENIAL_OF_SERVICE => "Denial of Service"
  | .OTHER => "Other"

/-- `Article` from `data_models.py`.  `published_date` is optional; `category`
and `is_cyber_event` start out as `None` and are filled in by the LLM
classifier. -/
structure Article where
  title : String
  description : String
  published_date : Option String := none
  source : String
  category : Option CyberEventCategory := none
  is_cyber_event : Option Bool := none
  deriving DecidableEq, Repr

/-- `ClassifiedArticle` from `news_fetcher.py`: one record of the LLM response.
`id` is an unconstrained Python `int`, hence `Int`. -/
structure ClassifiedArticle where
  id : Int
  category : CyberEventCategory
  is_cyber_event : Bool
  deriving DecidableEq, Repr

/-- `ActionPoint` from `data_models.py`. -/
structure ActionPoint where
  priority : Int
  description : String
  suggested_owner : String
  deriving DecidableEq, Repr

/-! ## Cache decision (`fetch_monthly_articles_with_cache`, news_fetcher.py 349-375)

The cache branch of `fetch_monthly_articles_with_cache` decides between
returning cached articles and fetching fresh data.  The file-system read and
JSON parse are modelled as inputs: `fileExists` says whether
`cache_dir / f"{month_key}_articles.json"` exists, and `parsed` is `some
(cacheDate, articles)` when `json.load` + `datetime.fromisoformat` succeed
(any exception in that block gives `none`).  `now` is `datetime.now()` and
`nowMonth` is `current_date.strftime('%Y-%m')`. -/

/-- Which data source a cache lookup resolves to. -/
inductive FetchSource where
  | cache
  | fresh
  deriving DecidableEq, Repr

/-- Seconds per day, for converting timestamp differences to whole days. -/
def secondsPerDay : Int := 86400

/-- `(current_date - cache_date).days`: Python `timedelta` days, i.e. floor
division of the difference in seconds by 86400. -/
def elapsedDays (now cacheDate : Int) : Int :=
  (now - cacheDate).fdiv secondsPerDay

/-- The `cache_valid_days` computation of `fetch_monthly_articles_with_cache`:
7 days when `month_key` equals the current month string, 30 otherwise. -/
def cache_valid_days (monthKey nowMonth : String) : Int :=
  if monthKey = nowMonth then 7 else 30

/-- The cache decision of `fetch_monthly_articles_with_cache`: `.cache` exactly
on the early-return path that serves cached articles, `.fresh` on every other
path (missing file, failed parse, stale entry). -/
def cacheFetchSource (fileExists : Bool) (parsed : Option Int)
    (now : Int) (monthKey nowMonth : String) : FetchSource :=
  if fileExists then
    match parsed with
    | some cacheDate =>
        if elapsedDays now cacheDate < cache_valid_days monthKey nowMonth then
          FetchSource.cache
        else
          FetchSource.fresh
    | none => FetchSource.fresh
  else
    FetchSource.fresh

/-- Modelled from the spec: the freshness window of a month key — 7 days for
the current calendar month, 30 days for a past month.  Written from the spec's
words, to be compared with `cache_valid_days` from the source. -/
def specFreshnessWindow (monthKey nowMonth : String) : Int :=
  if monthKey = nowMonth then 7 else 30

/-- Modelled from the spec: "cache file exists, parses successfully, and the
age (now minus the stored cache_date, in whole days) is strictly less than the
freshness window". -/
def specCacheHit (fileExists : Bool) (parsed : Option Int)
    (now : Int) (monthKey nowMonth : String) : Prop :=
  fileExists = true ∧
    ∃ cacheDate, parsed = some cacheDate ∧
      (now - cacheDate).fdiv secondsPerDay < specFreshnessWindow monthKey nowMonth

/-! ## LLM classification (`categorize_articles_with_llm`, news_fetcher.py 464-512)

The `client.chat.completions.create` call is modelled as an input of type
`Except Unit (List ClassifiedArticle)`: `.error` when the call raises (network
error, malformed response, provider error), `.ok results` when it returns.
The mutation loop and the `except` fallback are embedded exactly, including
Python's negative-index semantics for `articles[result.id]` and the
`IndexError` it can raise. -/

/-- Python list index resolution for a list of length `n` and signed index `i`
as used by `articles[result.id]`: a nonnegative `i` must be `< n`; a negative
`i` is offset by `n`; anything else raises `IndexError` (`none`). -/
def pyListIndex (n : Nat) (i : Int) : Option Nat :=
  if 0 ≤ i then
    if i < (n : Int) then some i.toNat else none
  else
    if 0 ≤ i + (n : Int) then some (i + (n : Int)).toNat else none

/-- The body of the result-mapping loop for a single `ClassifiedArticle`:
`if result.id < len(articles): articles[result.id].category = ...;
articles[result.id].is_cyber_event = ...`.  `Except.error` models an
`IndexError` escaping the statement. -/
def applyOneResult (arts : List Article) (r : ClassifiedArticle) :
    Except Unit (List Article) :=
  if r.id < (arts.length : Int) then
    match pyListIndex arts.length r.id with
    | some j =>
        match arts.get? j with
        | some a =>
            Except.ok (arts.set j
              { a with category := some r.category, is_cyber_event := some r.is_cyber_event })
        | none => Except.error ()
    | none => Except.error ()
  else
    Except.ok arts

/-- The whole result-mapping loop `for result in classified_results: ...`,
propagating a raised `IndexError`. -/
def applyResults (arts : List Article) (rs : List ClassifiedArticle) :
    Except Unit (List Article) :=
  rs.foldlM applyOneResult arts

/-- The `except` fallback of `categorize_articles_with_llm` applied to one
article: `article.category = CyberEventCategory.OTHER;
article.is_cyber_event = False`. -/
def fallbackClassify (a : Article) : Article :=
  { a with category := some CyberEventCategory.OTHER, is_cyber_event := some false }

/-- `categorize_articles_with_llm`: on a successful LLM call the results are
mapped back onto the articles by id; any exception — of the call itself or an
`IndexError` of the mapping loop — lands in the `except` branch, which assigns
the safe default to every article and returns the batch. -/
def categorize_articles_with_llm (llmCall : Except Unit (List ClassifiedArticle))
    (articles : List Article) : List Article :=
  match llmCall >>= applyResults articles with
  | Except.ok out => out
  | Except.error _ => articles.map fallbackClassify

/-! ## Monthly summary (`get_historical_news_summary`, news_fetcher.py 514-553)

Python dicts keep insertion order, so `monthly_data` and each bucket's
`categories` dict are modelled as association lists without duplicate keys,
updated in place.  The call `dateutil_parse(...).strftime('%Y-%m')` is an
external-library date parse and is modelled as an input function
`parseMonth : String → Option String` (`none` when it raises). -/

/-- A value of the `monthly_data` dict in `get_historical_news_summary`:
`{'articles': [...], 'total_count': n, 'categories': {...}}`. -/
structure MonthBucket where
  articles : List Article := []
  total_count : Nat := 0
  categories : List (String × Nat) := []
  deriving DecidableEq, Repr

/-- Sum of the values of a category-count dict (`sum(categories.values())`). -/
def sumCounts (cats : List (String × Nat)) : Nat :=
  (cats.map Prod.snd).sum

/-- `if category not in categories: categories[category] = 0;
categories[category] += 1` on an insertion-ordered dict. -/
def bumpCategory : List (String × Nat) → String → List (String × Nat)
  | [], c => [(c, 1)]
  | (k, v) :: rest, c =>
      if k = c then (k, v + 1) :: rest else (k, v) :: bumpCategory rest c

/-- `article.category.value if article.category else
CyberEventCategory.OTHER.value`. -/
def articleCategoryValue (a : Article) : String :=
  (a.category.getD CyberEventCategory.OTHER).value

/-- The bucket update of `get_historical_news_summary` for one article:
append the article, increment `total_count`, bump its category count. -/
def addToBucket (b : MonthBucket) (a : Article) : MonthBucket :=
  { articles := b.articles ++ [a]
    total_count := b.total_count + 1
    categories := bumpCategory b.categories (articleCategoryValue a) }

/-- Update of the outer `monthly_data` dict: find or create the bucket of
`mk` and add the article to it. -/
def bumpMonth : List (String × MonthBucket) → String → Article → List (String × MonthBucket)
  | [], mk, a => [(mk, addToBucket {} a)]
  | (k, b) :: rest, mk, a =>
      if k = mk then (k, addToBucket b a) :: rest
      else (k, b) :: bumpMonth rest mk a

/-- Month-key derivation for one article: `None` dates are skipped, a parse
exception skips the article, and `if not month_key` also skips a falsy (empty)
key. -/
def summaryMonthKey (parseMonth : String → Option String) (a : Article) : Option String :=
  match a.published_date with
  | none => none
  | some d =>
      match parseMonth d with
      | none => none
      | some mk => if mk = "" then none else some mk

/-- `get_historical_news_summary`: fold the articles into month buckets. -/
def get_historical_news_summary (parseMonth : String → Option String)
    (articles : List Article) : List (String × MonthBucket) :=
  articles.foldl
    (fun md a =>
      match summaryMonthKey parseMonth a with
      | some mk => bumpMonth md mk a
      | none => md)
    []

/-- The `cache_data` dict written by `fetch_monthly_articles_with_cache`
(news_fetcher.py 387-392): `{'month': month_key, 'cache_date': now,
'articles': articles, 'count': len(articles)}`. -/
structure CacheData where
  month : String
  cache_date : Int
  articles : List Article
  count : Nat
  deriving DecidableEq, Repr

/-- Construction of the cache entry written after a fresh fetch. -/
def mkCacheData (monthKey : String) (now : Int) (articles : List Article) : CacheData :=
  { month := monthKey
    cache_date := now
    articles := articles
    count := articles.length }

/-! ## Time-series analysis (`time_series_analyzer.py`)

`monthly_data` is the insertion-ordered dict produced above.  The float
thresholds `* 1.1` and `* 0.9` and the variance are modelled as exact rational
arithmetic. -/

/-- Python string `<`: lexicographic comparison of code-point sequences. -/
def pyStrLtData : List Char → List Char → Bool
  | [], [] => false
  | [], _ :: _ => true
  | _ :: _, [] => false
  | a :: as, b :: bs =>
      if a.toNat < b.toNat then true
      else if b.toNat < a.toNat then false
      else pyStrLtData as bs

/-- Python string `<=` on `String`. -/
def pyStrLe (a b : String) : Bool := ! pyStrLtData b.data a.data

/-- `sorted(keys)`: Python's sort is a stable comparison sort, and a stable
sort is determined uniquely by its total preorder, so insertion sort by the
same order models it exactly. -/
def pySortStrings (l : List String) : List String :=
  List.insertionSort (fun a b => pyStrLe a b = true) l

/-- `sorted(monthly_data.keys())` followed by reading each month's
`total_count` (`calculate_overall_trend`, time_series_analyzer.py 137-142). -/
def monthlyTotalCounts (md : List (String × MonthBucket)) : List Nat :=
  (pySortStrings (md.map Prod.fst)).map
    (fun m => ((md.lookup m).map MonthBucket.total_count).getD 0)

/-- `calculate_overall_trend` (time_series_analyzer.py 132-156): compare the
sums of the two halves of the chronologically sorted monthly totals against
the 10% thresholds. -/
def calculate_overall_trend (md : List (String × MonthBucket)) : String :=
  if md.length < 2 then "insufficient_data"
  else
    if 2 ≤ (monthlyTotalCounts md).length then
      if ((((monthlyTotalCounts md).take ((monthlyTotalCounts md).length / 2)).sum : ℚ) * 1.1 <
          (((monthlyTotalCounts md).drop ((monthlyTotalCounts md).length / 2)).sum : ℚ)) then
        "increasing"
      else if ((((monthlyTotalCounts md).drop ((monthlyTotalCounts md).length / 2)).sum : ℚ) <
          (((monthlyTotalCounts md).take ((monthlyTotalCounts md).length / 2)).sum : ℚ) * 0.9) then
        "decreasing"
      else "stable"
    else "stable"

/-- Python population variance as computed at time_series_analyzer.py 176-178:
`mean = sum(counts)/len(counts); variance = sum((c-mean)**2)/len(counts)`. -/
def pyVariance (counts : List Nat) : ℚ :=
  let n : ℚ := (counts.length : ℚ)
  let mean : ℚ := ((counts.map (fun c => (c : ℚ))).sum) / n
  ((counts.map (fun c => ((c : ℚ) - mean) ^ 2)).sum) / n

/-- The per-month counts of a category across `monthly_data.values()`, with
`categories.get(category, 0)` for months where it is absent. -/
def categoryCounts (md : List (String × MonthBucket)) (c : String) : List Nat :=
  md.map (fun p => (p.2.categories.lookup c).getD 0)

/-- The `all_categories` set of `calculate_most_volatile_category`.  Python
set iteration order is arbitrary; it is modelled by a deterministic
deduplication of the concatenated key lists (the claims leave tie order
arbitrary). -/
def allCategories (md : List (String × MonthBucket)) : List String :=
  ((md.map (fun p => p.2.categories.map Prod.fst)).flatten).dedup

/-- The `category_variance` dict: one entry per category whose count list has
more than one element (time_series_analyzer.py 170-179). -/
def categoryVariances (md : List (String × MonthBucket)) : List (String × ℚ) :=
  (allCategories md).filterMap (fun c =>
    let counts := categoryCounts md c
    if 1 < counts.length then some (c, pyVariance counts) else none)

/-- Python `max(items, key=lambda x: x[1])`: the first element whose key is
maximal (later elements replace the running maximum only when strictly
greater). -/
def pyMaxBySnd : List (String × ℚ) → Option (String × ℚ)
  | [] => none
  | x :: xs => some (xs.foldl (fun best y => if best.2 < y.2 then y else best) x)

/-- `calculate_most_volatile_category` (time_series_analyzer.py 158-184). -/
def calculate_most_volatile_category (md : List (String × MonthBucket)) : String :=
  if md.length < 2 then "insufficient_data"
  else
    match pyMaxBySnd (categoryVariances md) with
    | some best => best.1
    | none => "none"

/-- Modelled from the spec: the sum of the first half of the chronologically
sorted monthly totals (the spec splits at the midpoint, middle month going to
the second half). -/
def firstHalfSum (md : List (String × MonthBucket)) : ℚ :=
  (((monthlyTotalCounts md).take ((monthlyTotalCounts md).length / 2)).sum : ℚ)

/-- Modelled from the spec: the sum of the second half of the chronologically
sorted monthly totals. -/
def secondHalfSum (md : List (String × MonthBucket)) : ℚ :=
  (((monthlyTotalCounts md).drop ((monthlyTotalCounts md).length / 2)).sum : ℚ)

/-- Builds a `monthly_data` value carrying the given monthly totals (for the
concrete trend examples of the spec). -/
def monthTotals (l : List (String × Nat)) : List (String × MonthBucket) :=
  l.map (fun p => (p.1, { total_count := p.2 }))

/-- The spec's volatility example: per-month counts Ransomware `[3,0,2]`,
Phishing `[0,8,0]`, Other `[2,0,0]`. -/
def volatileExample : List (String × MonthBucket) :=
  [("2025-01", { categories := [("Ransomware", 3), ("Other", 2)] }),
   ("2025-02", { categories := [("Phishing", 8)] }),
   ("2025-03", { categories := [("Ransomware", 2)] })]

/-! ## Project-plan generation order (`main.py` 230-238) -/

/-- `sorted(board_action_plan.action_points, key=lambda x: x.priority)`:
Python's stable sort ascending by priority, modelled (as above) by the
equally stable insertion sort. -/
def sortActionPoints (aps : List ActionPoint) : List ActionPoint :=
  List.insertionSort (fun a b => a.priority ≤ b.priority) aps

/-- The loop `for i, action_point in enumerate(sorted_actions)`: each sorted
action point paired with the 1-based sequence index `i+1` used in its
`ProjectPlan_{i+1}_...` file name. -/
def projectPlanJobs (aps : List ActionPoint) : List (Nat × ActionPoint) :=
  (sortActionPoints aps).enum.map (fun p => (p.1 + 1, p.2))

/-! ## ASCII normalization (`convert_to_ascii`, news_fetcher.py 404-451)

Python strings are sequences of Unicode code points, modelled as `List Char`.
The function body is:

1. `text.encode('ascii', errors='ignore').decode('ascii')` — drop every code
   point ≥ 128 (this never raises, so the bare `except` fallback at the end of
   the function is unreachable);
2. the `replacements` dict loop.  Note the dict literal in the source: its
   smart-quote keys are plain ASCII quotes, and the two lines written
   `''': "'",` parse as ONE entry whose key is the 19-character triple-quoted
   string `: "'",` + newline + 12 spaces (Python reads `'''…'''` as a string
   literal there); the en/em dash, ellipsis and symbol keys are genuine
   non-ASCII characters;
3. keep characters with `char.isprintable() or char in '\n\r\t '`;
4. `' '.join(cleaned_text.split())`.
-/

/-- Code points accepted by Python's `ascii` codec. -/
def pyIsAsciiChar (c : Char) : Bool := c.toNat < 128

/-- Python `str.isprintable` on the ASCII range (code points 0x20–0x7e;
space is printable, control characters and DEL are not).  It is only ever
applied after the ASCII encode, so the behaviour on higher code points is
irrelevant. -/
def pyIsPrintableAscii (c : Char) : Bool := 0x20 ≤ c.toNat && c.toNat ≤ 0x7e

/-- The keep-condition of step 3: `char.isprintable() or char in '\n\r\t '`. -/
def pyKeepPrintable (c : Char) : Bool :=
  pyIsPrintableAscii c || c ∈ ['\n', '\r', '\t', ' ']

/-- ASCII `str.split()` whitespace: space, tab, newline, carriage return,
vertical tab, form feed. -/
def pyIsSpaceAscii (c : Char) : Bool :=
  c ∈ [' ', '\t', '\n', '\r', Char.ofNat 0x0b, Char.ofNat 0x0c]

/-- Boolean prefix test on character lists. -/
def isPrefixList : List Char → List Char → Bool
  | [], _ => true
  | _ :: _, [] => false
  | a :: as, b :: bs => a = b && isPrefixList as bs

/-- Worker for `replaceAll`: scan left to right; at a match emit `val` and
enter skip mode for the remaining `key.length - 1` matched characters; a
positive `skip` consumes a character without emitting it. -/
def replaceAllAux (key val : List Char) : Nat → List Char → List Char
  | _, [] => []
  | skip + 1, _ :: rest => replaceAllAux key val skip rest
  | 0, c :: rest =>
      if isPrefixList key (c :: rest) = true then
        val ++ replaceAllAux key val (key.length - 1) rest
      else
        c :: replaceAllAux key val 0 rest

/-- Python `str.replace(key, val)` for a non-empty `key`: replace every
non-overlapping occurrence left to right (for `key = []` this is the
identity; all keys in the source are non-empty). -/
def replaceAll (key val s : List Char) : List Char :=
  if key = [] then s else replaceAllAux key val 0 s

/-- The `replacements` dict of `convert_to_ascii`, in insertion order, as it
actually parses: the duplicated ASCII-quote entry collapses to one no-op
entry, the two `''': "'",` lines form a single entry with the 19-character
key described above, and the remaining keys are the genuine Unicode
characters. -/
def pyReplacements : List (List Char × List Char) :=
  [ (['"'], ['"']),
    ([':', ' ', '"', '\'', '"', ',', '\n'] ++ List.replicate 12 ' ', ['\'']),
    (['–'], ['-']),
    (['—'], ['-']),
    (['…'], ['.', '.', '.']),
    (['®'], ['(', 'R', ')']),
    (['©'], ['(', 'C', ')']),
    (['™'], ['(', 'T', 'M', ')']),
    (['°'], [' ', 'd', 'e', 'g', 'r', 'e', 'e', 's']),
    (['±'], ['+', '/', '-']) ]

/-- The `for unicode_char, ascii_replacement in replacements.items()` loop. -/
def applyReplacements (s : List Char) : List Char :=
  pyReplacements.foldl (fun t kv => replaceAll kv.1 kv.2 t) s

/-- One step of `str.split()` (whitespace split dropping empty parts), with an
accumulator of the current word reversed. -/
def splitWsAux : List Char → List Char → List (List Char)
  | [], acc => if acc = [] then [] else [acc.reverse]
  | c :: cs, acc =>
      if pyIsSpaceAscii c then
        if acc = [] then splitWsAux cs [] else acc.reverse :: splitWsAux cs []
      else splitWsAux cs (c :: acc)

/-- Python `str.split()` with no arguments. -/
def pySplitWs (s : List Char) : List (List Char) := splitWsAux s []

/-- Python `' '.join(words)`. -/
def pyJoinSpace : List (List Char) → List Char
  | [] => []
  | [w] => w
  | w :: ws => w ++ ' ' :: pyJoinSpace ws

/-- `convert_to_ascii` (news_fetcher.py 404-451). -/
def convert_to_ascii (text : List Char) : List Char :=
  if text = [] then []
  else
    pyJoinSpace (pySplitWs
      ((applyReplacements (text.filter pyIsAsciiChar)).filter pyKeepPrintable))

/-! ## Monthly fetch loop (`fetch_monthly_articles`, news_fetcher.py 184-235)

The Google search results are the input list `raws`; the date-resolution
chain (`parse_date` over the pagemap, the Playwright scrape and
`dateutil_parse`) is network-bound and is modelled by the `resolvedDate`
field (`none` when no usable date was obtained).  `extract_domain` (urllib)
and `datetime.isoformat` are modelled as input functions. -/

/-- One raw Google search result, with its date chain already resolved. -/
structure RawArticle where
  link : Option String := none
  title : Option String := none
  snippet : Option String := none
  resolvedDate : Option Int := none
  deriving DecidableEq, Repr

/-- Python `s.replace("\n", "")`. -/
def stripNewlines (s : String) : String :=
  String.mk (s.data.filter (fun c => c ≠ '\n'))

/-- The article-building expression of the loop body (news_fetcher.py
217-226). -/
def buildArticle (extractDomain : String → String) (isoFormat : Int → String)
    (r : RawArticle) (l : String) (d : Int) : Article :=
  { title := r.title.getD "No Title"
    description := stripNewlines (r.snippet.getD "No Description")
    published_date := some (isoFormat d)
    source := extractDomain l }

/-- The processing loop of `fetch_monthly_articles`: skip results without a
link, with an already-processed URL, without a usable date, or outside the
date window; stop once `articles_needed` articles are collected. -/
def fetchLoop (extractDomain : String → String) (isoFormat : Int → String)
    (startD endOfMonth filterAfter : Int) (needed : Nat) :
    List RawArticle → List String → List Article → List Article
  | [], _, acc => acc
  | r :: rest, urls, acc =>
      match r.link with
      | none => fetchLoop extractDomain isoFormat startD endOfMonth filterAfter needed rest urls acc
      | some l =>
          if l ∈ urls then
            fetchLoop extractDomain isoFormat startD endOfMonth filterAfter needed rest urls acc
          else
            match r.resolvedDate with
            | none => fetchLoop extractDomain isoFormat startD endOfMonth filterAfter needed rest urls acc
            | some d =>
                if d < filterAfter then
                  fetchLoop extractDomain isoFormat startD endOfMonth filterAfter needed rest urls acc
                else if ¬ (startD ≤ d ∧ d ≤ endOfMonth) then
                  fetchLoop extractDomain isoFormat startD endOfMonth filterAfter needed rest urls acc
                else
                  if needed ≤ (acc ++ [buildArticle extractDomain isoFormat r l d]).length then
                    acc ++ [buildArticle extractDomain isoFormat r l d]
                  else
                    fetchLoop extractDomain isoFormat startD endOfMonth filterAfter needed rest
                      (urls ++ [l]) (acc ++ [buildArticle extractDomain isoFormat r l d])

/-- `fetch_monthly_articles` restricted to its pure processing of the search
results (the search query construction and Playwright session are I/O). -/
def fetch_monthly_articles (extractDomain : String → String) (isoFormat : Int → String)
    (startD endOfMonth filterAfter : Int) (needed : Nat)
    (raws : List RawArticle) : List Article :=
  fetchLoop extractDomain isoFormat startD endOfMonth filterAfter needed raws [] []

instance {ε α : Type} [DecidableEq ε] [DecidableEq α] : DecidableEq (Except ε α) := fun a b =>
  match a, b with
  | .ok x, .ok y => decidable_of_iff (x = y) (by simp)
  | .error x, .error y => decidable_of_iff (x = y) (by simp)
  | .ok _, .error _ => isFalse (by simp)
  | .error _, .ok _ => isFalse (by simp)

/-- A sample unclassified article, used in the concrete instances below. -/
def sampleArticle : Article :=
  { title := "Acme Corp hit by ransomware", description := "details",
    published_date := none, source := "news.example", category := none,
    is_cyber_event := none }

/-- The sample article with a publication date, for the aggregation
instances. -/
def datedArticle : Article :=
  { sampleArticle with published_date := some "2025-01-05" }

/-! # Theorems -/

/-- C1: for every month key, the cache lookup is a hit exactly when the cache
file exists, parses successfully, and the age in whole days is strictly below
the freshness window (7 days for the current calendar month, 30 otherwise);
a current-month entry cached 6 days ago is a hit, 8 days ago a miss; a
past-month entry cached 29 days ago is a hit, 31 days ago a miss; every miss
resolves to fresh collection. -/
theorem cache_hit_iff_within_window :
    (∀ (fe : Bool) (p : Option Int) (now : Int) (mk nm : String),
      cacheFetchSource fe p now mk nm = FetchSource.cache ↔ specCacheHit fe p now mk nm) ∧
    (∀ (fe : Bool) (p : Option Int) (now : Int) (mk nm : String),
      cacheFetchSource fe p now mk nm = FetchSource.cache ∨
        cacheFetchSource fe p now mk nm = FetchSource.fresh) ∧
    cacheFetchSource true (some 0) (6 * 86400) "2025-10" "2025-10" = FetchSource.cache ∧
    cacheFetchSource true (some 0) (8 * 86400) "2025-10" "2025-10" = FetchSource.fresh ∧
    cacheFetchSource true (some 0) (29 * 86400) "2025-09" "2025-10" = FetchSource.cache ∧
    cacheFetchSource true (some 0) (31 * 86400) "2025-09" "2025-10" = FetchSource.fresh := by
  refine ⟨?_, ?_, by decide, by decide, by decide, by decide⟩
  · intro fe p now mk nm
    cases fe with
    | false => simp [cacheFetchSource, specCacheHit]
    | true =>
      cases p with
      | none => simp [cacheFetchSource, specCacheHit]
      | some d =>
        by_cases h : elapsedDays now d < cache_valid_days mk nm
        · simpa [cacheFetchSource, h, specCacheHit, specFreshnessWindow] using
            (by simpa [elapsedDays, cache_valid_days, secondsPerDay] using h)
        · simp only [cacheFetchSource, if_neg h, specCacheHit, specFreshnessWindow]
          constructor
          · intro hcontra
            exact absurd hcontra (by simp)
          · rintro ⟨-, d', hd', hlt⟩
            injection hd' with hd'
            subst hd'
            exact absurd (by simpa [elapsedDays, cache_valid_days, secondsPerDay] using hlt) h
  · intro fe p now mk nm
    unfold cacheFetchSource
    rcases fe with _ | _
    · simp
    · rcases p with _ | d
      · simp
      · simp
        omega

/-- C2: when the LLM classification call raises, `categorize_articles_with_llm`
returns the whole batch with `category = Other` and `is_cyber_event = False`
on every article, all other fields and the batch length unchanged — never a
partially classified batch, and no exception escapes (the embedding is a total
function into `List Article`). -/
theorem classify_error_fallback (e : Unit) (articles : List Article) :
    (categorize_articles_with_llm (Except.error e) articles).length = articles.length ∧
    (categorize_articles_with_llm (Except.error e) articles).map
        (fun a => (a.category, a.is_cyber_event)) =
      articles.map (fun _ => (some CyberEventCategory.OTHER, some false)) ∧
    (categorize_articles_with_llm (Except.error e) articles).map
        (fun a => (a.title, a.description, a.published_date, a.source)) =
      articles.map (fun a => (a.title, a.description, a.published_date, a.source)) := by
  have h : categorize_articles_with_llm (Except.error e) articles =
      articles.map fallbackClassify := rfl
  rw [h]
  refine ⟨by simp, ?_, ?_⟩ <;>
    simp [List.map_map, fallbackClassify, Function.comp_def, List.map_const']

/-- C5: one project plan is generated per action point, the action points are
processed in ascending priority order, and each plan's sequence index is its
1-based position in the sorted order (1..N), not its priority value; action
points with priorities [3,1,2] yield plans in the order of priorities 1, 2, 3
with sequence indices 1, 2, 3. -/
theorem project_plans_sorted_by_priority :
    (∀ aps : List ActionPoint, (projectPlanJobs aps).length = aps.length) ∧
    (∀ aps : List ActionPoint, ((projectPlanJobs aps).map Prod.snd).Perm aps) ∧
    (∀ aps : List ActionPoint,
      ((projectPlanJobs aps).map (fun p => p.2.priority)).Sorted (· ≤ ·)) ∧
    (∀ aps : List ActionPoint,
      (projectPlanJobs aps).map Prod.fst = (List.range aps.length).map (· + 1)) ∧
    projectPlanJobs
        [⟨3, "harden supply chain", "CISO"⟩, ⟨1, "patch critical systems", "CISO"⟩,
          ⟨2, "train staff", "HR"⟩] =
      [(1, ⟨1, "patch critical systems", "CISO"⟩), (2, ⟨2, "train staff", "HR"⟩),
        (3, ⟨3, "harden supply chain", "CISO"⟩)] := by
  have hlen : ∀ aps : List ActionPoint, (sortActionPoints aps).length = aps.length :=
    fun aps => (List.perm_insertionSort _ aps).length_eq
  have hsnd : ∀ aps : List ActionPoint,
      (projectPlanJobs aps).map Prod.snd = sortActionPoints aps := by
    intro aps
    simp [projectPlanJobs, List.map_map, Function.comp_def]
  refine ⟨?_, ?_, ?_, ?_, by decide⟩
  · intro aps
    simp [projectPlanJobs, List.enum_length, hlen]
  · intro aps
    rw [hsnd]
    exact List.perm_insertionSort _ aps
  · intro aps
    have hs : List.Sorted (fun a b : ActionPoint => a.priority ≤ b.priority)
        (sortActionPoints aps) :=
      @List.sorted_insertionSort ActionPoint (fun a b => a.priority ≤ b.priority) _
        ⟨fun a b => Int.le_total _ _⟩ ⟨fun _ _ _ => le_trans⟩ aps
    have hmap : (projectPlanJobs aps).map (fun p => p.2.priority) =
        (sortActionPoints aps).map (fun a => a.priority) := by
      have := congrArg (List.map ActionPoint.priority) (hsnd aps)
      simpa [List.map_map, Function.comp_def] using this
    rw [hmap]
    exact List.Pairwise.map _ (fun _ _ h => h) hs
  · intro aps
    have h1 : (projectPlanJobs aps).map Prod.fst =
        (sortActionPoints aps).enum.map (fun x => x.1 + 1) := by
      simp [projectPlanJobs, List.map_map, Function.comp_def]
    rw [h1, ← hlen aps, ← List.enum_map_fst (sortActionPoints aps), List.map_map]
    rfl

/-- C6: the code DELETES typographic punctuation instead of mapping it to
ASCII.  `text.encode('ascii', errors='ignore')` runs before the
`replacements` loop, so the non-ASCII keys of the replacement table (en/em
dash, ellipsis, (R), (C), (TM), degrees, plus-minus) can never occur in the
text the loop sees: the table is dead code for them, and each such character
is dropped.  The spec's claim that an en dash maps to "-" and "…" to "..."
fails on the code; this contradicts the code's own replacement table, which
spells out exactly those mappings. -/
theorem convert_to_ascii_deletes_typography :
    convert_to_ascii ['–'] = [] ∧ convert_to_ascii ['—'] = [] ∧
    convert_to_ascii ['…'] = [] ∧ convert_to_ascii ['®'] = [] ∧
    convert_to_ascii ['©'] = [] ∧ convert_to_ascii ['™'] = [] ∧
    convert_to_ascii ['°'] = [] ∧ convert_to_ascii ['±'] = [] ∧
    convert_to_ascii ('e' :: 'n' :: '–' :: 'd' :: []) = ['e', 'n', 'd'] := by
  decide

/-- C8 counterexample: the fresh-collection loop deduplicates by URL, not by
title — two search results with distinct links but identical titles are both
returned, so the output does contain two articles with exactly the same
title. -/
theorem title_dedup_counterexample :
    ¬ List.Pairwise (fun a b : Article => a.title ≠ b.title)
      (fetch_monthly_articles id (fun _ => "2024-08-05T00:00:00") 0 1000000000 0 100
        [{ link := some "http://a.example/x", title := some "Major ransomware attack",
           snippet := some "s", resolvedDate := some 100 },
         { link := some "http://b.example/y", title := some "Major ransomware attack",
           snippet := some "s", resolvedDate := some 100 }]) := by
  decide

/-- Helper for C8: the loop never consumes the same URL twice, so with the
identity domain extraction the sources of the accumulated articles stay
pairwise distinct. -/
theorem fetchLoop_source_nodup (isoFormat : Int → String)
    (startD endOfMonth filterAfter : Int) (needed : Nat) :
    ∀ (raws : List RawArticle) (urls : List String) (acc : List Article),
      (acc.map Article.source).Nodup → (∀ a ∈ acc, a.source ∈ urls) →
      ((fetchLoop id isoFormat startD endOfMonth filterAfter needed raws urls acc).map
          Article.source).Nodup := by
  intro raws
  induction raws with
  | nil =>
    intro urls acc hnd _
    simpa [fetchLoop] using hnd
  | cons r rest ih =>
    intro urls acc hnd hsub
    cases hl : r.link with
    | none =>
      simp only [fetchLoop, hl]
      exact ih urls acc hnd hsub
    | some l =>
      cases hd : r.resolvedDate with
      | none =>
        simp only [fetchLoop, hl, hd]
        by_cases hmem : l ∈ urls
        · rw [if_pos hmem]
          exact ih urls acc hnd hsub
        · rw [if_neg hmem]
          exact ih urls acc hnd hsub
      | some d =>
        simp only [fetchLoop, hl, hd]
        by_cases hmem : l ∈ urls
        · rw [if_pos hmem]
          exact ih urls acc hnd hsub
        · rw [if_neg hmem]
          by_cases h1 : d < filterAfter
          · rw [if_pos h1]
            exact ih urls acc hnd hsub
          · rw [if_neg h1]
            by_cases h2 : ¬ (startD ≤ d ∧ d ≤ endOfMonth)
            · rw [if_pos h2]
              exact ih urls acc hnd hsub
            · rw [if_neg h2]
              have hsrc : (buildArticle id isoFormat r l d).source = l := rfl
              have hnd' : ((acc ++ [buildArticle id isoFormat r l d]).map
                  Article.source).Nodup := by
                rw [List.map_append]
                rw [List.nodup_append]
                refine ⟨hnd, by simp, ?_⟩
                intro x hx
                simp only [List.map_cons, List.map_nil, List.mem_singleton, hsrc]
                intro hxl
                subst hxl
                rcases List.mem_map.1 hx with ⟨a, ha, hax⟩
                exact hmem (hax ▸ hsub a ha)
              by_cases h3 : needed ≤ (acc ++ [buildArticle id isoFormat r l d]).length
              · rw [if_pos h3]
                exact hnd'
              · rw [if_neg h3]
                refine ih (urls ++ [l]) _ hnd' ?_
                intro a ha
                rcases List.mem_append.1 ha with h | h
                · exact List.mem_append_left _ (hsub a h)
                · have : a = buildArticle id isoFormat r l d := by simpa using h
                  subst this
                  simp [hsrc]

/-- C8 amended: within one month's fresh collection the loop deduplicates by
exact link match (never processing the same URL twice), not by title; with the
identity domain extraction the returned sources are pairwise distinct for
every input.  Cross-month deduplication does not exist: each monthly call is
a pure function of its own inputs with no shared state. -/
theorem fetch_dedup_by_link (isoFormat : Int → String)
    (startD endOfMonth filterAfter : Int) (needed : Nat) (raws : List RawArticle) :
    ((fetch_monthly_articles id isoFormat startD endOfMonth filterAfter needed raws).map
        Article.source).Nodup := by
  exact fetchLoop_source_nodup isoFormat startD endOfMonth filterAfter needed raws [] []
    (by simp) (by simp)

/-- C10 counterexample: a classifier record whose id is outside
`[0, len(articles))` is NOT always ignored.  With one input article, the
record id `-1` lies outside `[0, 1)` yet Python's negative indexing makes it
modify the (last) article; id `-2` raises `IndexError` inside the mapping
loop, which lands in the `except` fallback and rewrites the whole batch. -/
theorem out_of_range_id_counterexample :
    categorize_articles_with_llm
        (Except.ok [⟨-1, CyberEventCategory.RANSOMWARE, true⟩]) [sampleArticle] =
      [(⟨"Acme Corp hit by ransomware", "details", none, "news.example",
          some CyberEventCategory.RANSOMWARE, some true⟩ : Article)] ∧
    categorize_articles_with_llm
        (Except.ok [⟨-1, CyberEventCategory.RANSOMWARE, true⟩]) [sampleArticle] ≠
      [sampleArticle] ∧
    applyOneResult [sampleArticle] ⟨-2, CyberEventCategory.RANSOMWARE, true⟩ =
      Except.error () := by
  decide

/-- C10 amended: a record whose id is `≥ len(articles)` is ignored — it
modifies no article and raises nothing; but negative ids are not ignored:
an id in `[-len, -1]` updates the article at position `len + id` (Python
negative indexing), and an id `< -len` raises `IndexError`, which the
enclosing `except` turns into the whole-batch fallback. -/
theorem out_of_range_id_amended :
    (∀ (arts : List Article) (r : ClassifiedArticle), (arts.length : Int) ≤ r.id →
      applyOneResult arts r = Except.ok arts) ∧
    (∀ (arts : List Article) (r : ClassifiedArticle) (a : Article),
      r.id < 0 → 0 ≤ r.id + (arts.length : Int) →
      arts[(r.id + (arts.length : Int)).toNat]? = some a →
      applyOneResult arts r = Except.ok (arts.set (r.id + (arts.length : Int)).toNat
        { a with category := some r.category, is_cyber_event := some r.is_cyber_event })) ∧
    (∀ (arts : List Article) (r : ClassifiedArticle), r.id + (arts.length : Int) < 0 →
      applyOneResult arts r = Except.error ()) := by
  refine ⟨?_, ?_, ?_⟩
  · intro arts r h
    rw [applyOneResult, if_neg (not_lt.2 h)]
  · intro arts r a hneg hge hget
    rw [applyOneResult, if_pos (by omega : r.id < (arts.length : Int))]
    rw [pyListIndex, if_neg (by omega : ¬ 0 ≤ r.id), if_pos hge]
    simp [hget]
  · intro arts r h
    have hlen : (0 : Int) ≤ (arts.length : Int) := Int.ofNat_nonneg _
    rw [applyOneResult, if_pos (by omega : r.id < (arts.length : Int))]
    rw [pyListIndex, if_neg (by omega : ¬ 0 ≤ r.id), if_neg (by omega : ¬ 0 ≤ r.id + (arts.length : Int))]

/-- Witness for the amended C10 theorem at concrete inputs: id 3 on a
1-article batch is ignored, id -1 updates the single article, id -2 raises. -/
theorem out_of_range_id_amended_witness :
    applyOneResult [sampleArticle] ⟨3, CyberEventCategory.MALWARE, false⟩ =
      Except.ok [sampleArticle] ∧
    applyOneResult [sampleArticle] ⟨-1, CyberEventCategory.MALWARE, false⟩ =
      Except.ok (List.set [sampleArticle] ((-1 : Int) + (([sampleArticle].length : Nat) : Int)).toNat
        { sampleArticle with
            category := some CyberEventCategory.MALWARE
            is_cyber_event := some false }) ∧
    applyOneResult [sampleArticle] ⟨-2, CyberEventCategory.MALWARE, false⟩ =
      Except.error () :=
  ⟨out_of_range_id_amended.1 [sampleArticle] ⟨3, CyberEventCategory.MALWARE, false⟩ (by decide),
   out_of_range_id_amended.2.1 [sampleArticle] ⟨-1, CyberEventCategory.MALWARE, false⟩
     sampleArticle (by decide) (by decide) (by decide),
   out_of_range_id_amended.2.2 [sampleArticle] ⟨-2, CyberEventCategory.MALWARE, false⟩ (by decide)⟩

/-- Helper for C9: bumping a category's count raises the sum of the
category-count dict by exactly one. -/
theorem sumCounts_bumpCategory (cats : List (String × Nat)) (c : String) :
    sumCounts (bumpCategory cats c) = sumCounts cats + 1 := by
  induction cats with
  | nil => simp [bumpCategory, sumCounts]
  | cons kv rest ih =>
    obtain ⟨k, v⟩ := kv
    by_cases h : k = c
    · simp only [bumpCategory, if_pos h, sumCounts, List.map_cons, List.sum_cons]
      omega
    · simp only [bumpCategory, if_neg h, sumCounts, List.map_cons, List.sum_cons] at *
      omega

/-- Helper for C9: adding one article to a bucket preserves the bucket
invariant. -/
theorem addToBucket_invariant (b : MonthBucket) (a : Article)
    (h1 : b.total_count = b.articles.length)
    (h2 : b.total_count = sumCounts b.categories) :
    (addToBucket b a).total_count = (addToBucket b a).articles.length ∧
    (addToBucket b a).total_count = sumCounts (addToBucket b a).categories := by
  simp [addToBucket, sumCounts_bumpCategory, h1.symm, h2.symm]

/-- Helper for C9: the `monthly_data` update for one article preserves the
invariant on every bucket. -/
theorem bumpMonth_invariant (mk : String) (a : Article) :
    ∀ (md : List (String × MonthBucket)),
      (∀ kb ∈ md, kb.2.total_count = kb.2.articles.length ∧
        kb.2.total_count = sumCounts kb.2.categories) →
      ∀ kb ∈ bumpMonth md mk a,
        kb.2.total_count = kb.2.articles.length ∧
        kb.2.total_count = sumCounts kb.2.categories := by
  intro md
  induction md with
  | nil =>
    intro _ kb hkb
    simp only [bumpMonth, List.mem_singleton] at hkb
    subst hkb
    exact addToBucket_invariant {} a rfl rfl
  | cons p rest ih =>
    intro hmd kb hkb
    obtain ⟨k, b⟩ := p
    by_cases h : k = mk
    · rw [bumpMonth, if_pos h] at hkb
      rcases List.mem_cons.1 hkb with hkb | hkb
      · subst hkb
        exact addToBucket_invariant b a (hmd (k, b) (List.mem_cons_self _ _)).1
          (hmd (k, b) (List.mem_cons_self _ _)).2
      · exact hmd kb (List.mem_cons_of_mem _ hkb)
    · rw [bumpMonth, if_neg h] at hkb
      rcases List.mem_cons.1 hkb with hkb | hkb
      · subst hkb
        exact hmd (k, b) (List.mem_cons_self _ _)
      · exact ih (fun kb h => hmd kb (List.mem_cons_of_mem _ h)) kb hkb

/-- Helper for C9: the fold of `get_historical_news_summary` preserves the
bucket invariant from any starting dict. -/
theorem summary_fold_invariant (parseMonth : String → Option String) :
    ∀ (arts : List Article) (md : List (String × MonthBucket)),
      (∀ kb ∈ md, kb.2.total_count = kb.2.articles.length ∧
        kb.2.total_count = sumCounts kb.2.categories) →
      ∀ kb ∈ arts.foldl
          (fun md a =>
            match summaryMonthKey parseMonth a with
            | some mk => bumpMonth md mk a
            | none => md) md,
        kb.2.total_count = kb.2.articles.length ∧
        kb.2.total_count = sumCounts kb.2.categories := by
  intro arts
  induction arts with
  | nil => intro md hmd kb hkb; exact hmd kb (by simpa using hkb)
  | cons a rest ih =>
    intro md hmd kb hkb
    rw [List.foldl_cons] at hkb
    cases hmk : summaryMonthKey parseMonth a with
    | none =>
      rw [hmk] at hkb
      exact ih md hmd kb hkb
    | some mk =>
      rw [hmk] at hkb
      exact ih (bumpMonth md mk a) (bumpMonth_invariant mk a md hmd) kb hkb

/-- C9: every cache entry written by the collector stores
`count = len(articles)`, and every monthly bucket built by the aggregator
satisfies `total_count = len(articles) = sum(category counts)`. -/
theorem monthly_bucket_invariant :
    (∀ (mk : String) (now : Int) (arts : List Article),
      (mkCacheData mk now arts).count = (mkCacheData mk now arts).articles.length) ∧
    (∀ (parseMonth : String → Option String) (arts : List Article)
        (k : String) (b : MonthBucket),
      (k, b) ∈ get_historical_news_summary parseMonth arts →
        b.total_count = b.articles.length ∧ b.total_count = sumCounts b.categories) := by
  refine ⟨fun _ _ _ => rfl, ?_⟩
  intro parseMonth arts k b hmem
  exact summary_fold_invariant parseMonth arts [] (by simp) (k, b) hmem

/-- Witness for C9 at a concrete input: one article with a parsable date
lands in the bucket `("2025-01", ⟨[sampleArticle], 1, [("Other", 1)]⟩)`,
which satisfies the invariant. -/
theorem monthly_bucket_invariant_witness :
    ("2025-01", (⟨[datedArticle], 1, [("Other", 1)]⟩ : MonthBucket)) ∈
      get_historical_news_summary (fun _ => some "2025-01") [datedArticle] ∧
    ((1 : Nat) = [datedArticle].length ∧ (1 : Nat) = sumCounts [("Other", 1)]) := by
  refine ⟨by decide, ?_⟩
  exact monthly_bucket_invariant.2 (fun _ => some "2025-01") [datedArticle]
    "2025-01" ⟨[datedArticle], 1, [("Other", 1)]⟩ (by decide)

/-- Helper for C3: the sorted total-count list has one entry per month. -/
theorem monthlyTotalCounts_length (md : List (String × MonthBucket)) :
    (monthlyTotalCounts md).length = md.length := by
  unfold monthlyTotalCounts pySortStrings
  rw [List.length_map, (List.perm_insertionSort _ _).length_eq, List.length_map]

/-- Helper for C3: the first-half sum is nonnegative. -/
theorem firstHalfSum_nonneg (md : List (String × MonthBucket)) : 0 ≤ firstHalfSum md := by
  unfold firstHalfSum
  exact_mod_cast Nat.cast_nonneg _

/-- Helper for C3: with at least two months the three trend answers are
characterized by the half-sum comparisons. -/
theorem overall_trend_cases (md : List (String × MonthBucket)) (h2 : 2 ≤ md.length) :
    (calculate_overall_trend md = "increasing" ↔
      firstHalfSum md * 1.1 < secondHalfSum md) ∧
    (calculate_overall_trend md = "decreasing" ↔
      secondHalfSum md < firstHalfSum md * 0.9) ∧
    (calculate_overall_trend md = "stable" ↔
      ¬ firstHalfSum md * 1.1 < secondHalfSum md ∧
        ¬ secondHalfSum md < firstHalfSum md * 0.9) := by
  have hfh : 0 ≤ firstHalfSum md := firstHalfSum_nonneg md
  unfold calculate_overall_trend
  rw [if_neg (by omega : ¬ md.length < 2),
      if_pos (by rw [monthlyTotalCounts_length]; exact h2)]
  by_cases hA : firstHalfSum md * 1.1 < secondHalfSum md
  · rw [if_pos (by exact hA)]
    have hnB : ¬ secondHalfSum md < firstHalfSum md * 0.9 := by
      intro hB
      nlinarith [hA, hB, hfh]
    exact ⟨iff_of_true rfl hA,
      iff_of_false (by decide) hnB,
      iff_of_false (by decide) (fun h => h.1 hA)⟩
  · rw [if_neg (by exact hA)]
    by_cases hB : secondHalfSum md < firstHalfSum md * 0.9
    · rw [if_pos (by exact hB)]
      exact ⟨iff_of_false (by decide) hA,
        iff_of_true rfl hB,
        iff_of_false (by decide) (fun h => h.2 hB)⟩
    · rw [if_neg (by exact hB)]
      exact ⟨iff_of_false (by decide) hA,
        iff_of_false (by decide) hB,
        iff_of_true rfl ⟨hA, hB⟩⟩

/-- C3: for at least 2 months, the overall trend compares the sums of the two
halves of the chronologically sorted monthly totals against the strict 10%
thresholds; fewer than 2 months gives "insufficient_data"; the spec's four
concrete examples evaluate as stated. -/
theorem overall_trend_spec :
    (∀ md : List (String × MonthBucket), 2 ≤ md.length →
      ((calculate_overall_trend md = "increasing" ↔
          firstHalfSum md * 1.1 < secondHalfSum md) ∧
       (calculate_overall_trend md = "decreasing" ↔
          secondHalfSum md < firstHalfSum md * 0.9) ∧
       (calculate_overall_trend md = "stable" ↔
          ¬ firstHalfSum md * 1.1 < secondHalfSum md ∧
            ¬ secondHalfSum md < firstHalfSum md * 0.9))) ∧
    (∀ md : List (String × MonthBucket), md.length < 2 →
      calculate_overall_trend md = "insufficient_data") ∧
    calculate_overall_trend (monthTotals
      [("2025-01", 10), ("2025-02", 10), ("2025-03", 10),
       ("2025-04", 15), ("2025-05", 15), ("2025-06", 15)]) = "increasing" ∧
    calculate_overall_trend (monthTotals
      [("2025-01", 15), ("2025-02", 15), ("2025-03", 15),
       ("2025-04", 10), ("2025-05", 10), ("2025-06", 10)]) = "decreasing" ∧
    calculate_overall_trend (monthTotals
      [("2025-01", 10), ("2025-02", 11), ("2025-03", 9), ("2025-04", 10)]) = "stable" ∧
    calculate_overall_trend (monthTotals [("2025-01", 10)]) = "insufficient_data" := by
  have hins : ∀ md : List (String × MonthBucket), md.length < 2 →
      calculate_overall_trend md = "insufficient_data" := by
    intro md h
    unfold calculate_overall_trend
    rw [if_pos h]
  refine ⟨overall_trend_cases, hins, ?_, ?_, ?_, hins _ (by decide)⟩
  · refine ((overall_trend_cases _ (by decide)).1).mpr ?_
    have ht : ((monthlyTotalCounts (monthTotals
        [("2025-01", 10), ("2025-02", 10), ("2025-03", 10),
         ("2025-04", 15), ("2025-05", 15), ("2025-06", 15)])).take
          ((monthlyTotalCounts (monthTotals
        [("2025-01", 10), ("2025-02", 10), ("2025-03", 10),
         ("2025-04", 15), ("2025-05", 15), ("2025-06", 15)])).length / 2)).sum = 30 := by
      decide
    have hd : ((monthlyTotalCounts (monthTotals
        [("2025-01", 10), ("2025-02", 10), ("2025-03", 10),
         ("2025-04", 15), ("2025-05", 15), ("2025-06", 15)])).drop
          ((monthlyTotalCounts (monthTotals
        [("2025-01", 10), ("2025-02", 10), ("2025-03", 10),
         ("2025-04", 15), ("2025-05", 15), ("2025-06", 15)])).length / 2)).sum = 45 := by
      decide
    unfold firstHalfSum secondHalfSum
    rw [ht, hd]
    norm_num
  · refine ((overall_trend_cases _ (by decide)).2.1).mpr ?_
    have ht : ((monthlyTotalCounts (monthTotals
        [("2025-01", 15), ("2025-02", 15), ("2025-03", 15),
         ("2025-04", 10), ("2025-05", 10), ("2025-06", 10)])).take
          ((monthlyTotalCounts (monthTotals
        [("2025-01", 15), ("2025-02", 15), ("2025-03", 15),
         ("2025-04", 10), ("2025-05", 10), ("2025-06", 10)])).length / 2)).sum = 45 := by
      decide
    have hd : ((monthlyTotalCounts (monthTotals
        [("2025-01", 15), ("2025-02", 15), ("2025-03", 15),
         ("2025-04", 10), ("2025-05", 10), ("2025-06", 10)])).drop
          ((monthlyTotalCounts (monthTotals
        [("2025-01", 15), ("2025-02", 15), ("2025-03", 15),
         ("2025-04", 10), ("2025-05", 10), ("2025-06", 10)])).length / 2)).sum = 30 := by
      decide
    unfold firstHalfSum secondHalfSum
    rw [ht, hd]
    norm_num
  · refine ((overall_trend_cases _ (by decide)).2.2).mpr ?_
    have ht : ((monthlyTotalCounts (monthTotals
        [("2025-01", 10), ("2025-02", 11), ("2025-03", 9), ("2025-04", 10)])).take
          ((monthlyTotalCounts (monthTotals
        [("2025-01", 10), ("2025-02", 11), ("2025-03", 9), ("2025-04", 10)])).length / 2)).sum
        = 21 := by
      decide
    have hd : ((monthlyTotalCounts (monthTotals
        [("2025-01", 10), ("2025-02", 11), ("2025-03", 9), ("2025-04", 10)])).drop
          ((monthlyTotalCounts (monthTotals
        [("2025-01", 10), ("2025-02", 11), ("2025-03", 9), ("2025-04", 10)])).length / 2)).sum
        = 19 := by
      decide
    unfold firstHalfSum secondHalfSum
    rw [ht, hd]
    norm_num

/-- Witness for C3 at concrete inputs: the characterization instantiated on
the six-month example and the insufficient-data rule on a one-month input. -/
theorem overall_trend_spec_witness :
    (calculate_overall_trend (monthTotals
      [("2025-01", 10), ("2025-02", 10), ("2025-03", 10),
       ("2025-04", 15), ("2025-05", 15), ("2025-06", 15)]) = "increasing" ↔
      firstHalfSum (monthTotals
        [("2025-01", 10), ("2025-02", 10), ("2025-03", 10),
         ("2025-04", 15), ("2025-05", 15), ("2025-06", 15)]) * 1.1 <
        secondHalfSum (monthTotals
          [("2025-01", 10), ("2025-02", 10), ("2025-03", 10),
           ("2025-04", 15), ("2025-05", 15), ("2025-06", 15)])) ∧
    calculate_overall_trend (monthTotals [("2025-01", 10)]) = "insufficient_data" :=
  ⟨(overall_trend_spec.1 (monthTotals
      [("2025-01", 10), ("2025-02", 10), ("2025-03", 10),
       ("2025-04", 15), ("2025-05", 15), ("2025-06", 15)]) (by decide)).1,
   overall_trend_spec.2.1 (monthTotals [("2025-01", 10)]) (by decide)⟩

/-- Helper for C4: the running maximum of Python `max(..., key=snd)` is the
start element or a list element, and its key bounds every key seen. -/
theorem foldl_max_spec (xs : List (String × ℚ)) :
    ∀ x : String × ℚ,
      ((xs.foldl (fun best y => if best.2 < y.2 then y else best) x) = x ∨
        (xs.foldl (fun best y => if best.2 < y.2 then y else best) x) ∈ xs) ∧
      x.2 ≤ (xs.foldl (fun best y => if best.2 < y.2 then y else best) x).2 ∧
      ∀ y ∈ xs, y.2 ≤ (xs.foldl (fun best y => if best.2 < y.2 then y else best) x).2 := by
  induction xs with
  | nil => intro x; exact ⟨Or.inl rfl, le_refl _, by simp⟩
  | cons z zs ih =>
    intro x
    rw [List.foldl_cons]
    obtain ⟨hmem, hself, hall⟩ := ih (if x.2 < z.2 then z else x)
    have hx : x.2 ≤ (if x.2 < z.2 then z else x).2 := by
      by_cases h : x.2 < z.2
      · rw [if_pos h]; exact le_of_lt h
      · rw [if_neg h]
    have hz : z.2 ≤ (if x.2 < z.2 then z else x).2 := by
      by_cases h : x.2 < z.2
      · rw [if_pos h]
      · rw [if_neg h]; exact le_of_not_lt h
    refine ⟨?_, le_trans hx hself, ?_⟩
    · rcases hmem with h | h
      · rw [h]
        by_cases hc : x.2 < z.2
        · rw [if_pos hc]; exact Or.inr (List.mem_cons_self _ _)
        · rw [if_neg hc]; exact Or.inl rfl
      · exact Or.inr (List.mem_cons_of_mem _ h)
    · intro y hy
      rcases List.mem_cons.1 hy with hy | hy
      · subst hy; exact le_trans hz hself
      · exact hall y hy

/-- Helper for C4: the per-month count list of a category has one entry per
month. -/
theorem categoryCounts_length (md : List (String × MonthBucket)) (c : String) :
    (categoryCounts md c).length = md.length := by
  simp [categoryCounts]

/-- Helper for C4: with at least two months the `len(counts) > 1` guard is
always true, so the variance dict has exactly one entry per category. -/
theorem categoryVariances_eq (md : List (String × MonthBucket)) (h2 : 2 ≤ md.length) :
    categoryVariances md =
      (allCategories md).map (fun c => (c, pyVariance (categoryCounts md c))) := by
  unfold categoryVariances
  have hg : ∀ c : String, 1 < (categoryCounts md c).length := by
    intro c; rw [categoryCounts_length]; omega
  induction allCategories md with
  | nil => rfl
  | cons c cs ih =>
    rw [List.filterMap_cons, List.map_cons]
    simp only [if_pos (hg c)]
    rw [ih]

/-- C4: fewer than 2 months gives "insufficient_data"; with at least 2 months
and no categories the answer is "none"; otherwise the selected category is one
of the observed categories and its population variance (over the per-month
counts, 0 where absent) is maximal; on the spec's example (Ransomware
[3,0,2], Phishing [0,8,0], Other [2,0,0]) Phishing is selected. -/
theorem most_volatile_spec :
    (∀ md : List (String × MonthBucket), md.length < 2 →
      calculate_most_volatile_category md = "insufficient_data") ∧
    (∀ md : List (String × MonthBucket), 2 ≤ md.length → allCategories md = [] →
      calculate_most_volatile_category md = "none") ∧
    (∀ (md : List (String × MonthBucket)) (c : String), 2 ≤ md.length →
      c ∈ allCategories md →
      calculate_most_volatile_category md ∈ allCategories md ∧
      pyVariance (categoryCounts md c) ≤
        pyVariance (categoryCounts md (calculate_most_volatile_category md))) ∧
    calculate_most_volatile_category volatileExample = "Phishing" := by
  refine ⟨?_, ?_, ?_, ?_⟩
  · intro md h
    unfold calculate_most_volatile_category
    rw [if_pos h]
  · intro md h2 hempty
    unfold calculate_most_volatile_category
    rw [if_neg (by omega : ¬ md.length < 2), categoryVariances_eq md h2, hempty]
    rfl
  · intro md c h2 hc
    unfold calculate_most_volatile_category
    rw [if_neg (by omega : ¬ md.length < 2), categoryVariances_eq md h2]
    rcases hl : allCategories md with _ | ⟨c0, cs⟩
    · rw [hl] at hc; exact absurd hc (List.not_mem_nil c)
    · rw [List.map_cons]
      simp only [pyMaxBySnd]
      obtain ⟨hmem, -, hall⟩ := foldl_max_spec
        ((cs.map (fun c => (c, pyVariance (categoryCounts md c)))))
        (c0, pyVariance (categoryCounts md c0))
      set best := (cs.map (fun c => (c, pyVariance (categoryCounts md c)))).foldl
        (fun best y => if best.2 < y.2 then y else best)
        (c0, pyVariance (categoryCounts md c0)) with hbest
      have hbest_shape : best.1 ∈ c0 :: cs ∧
          best.2 = pyVariance (categoryCounts md best.1) := by
        rcases hmem with h | h
        · rw [h]; exact ⟨List.mem_cons_self _ _, rfl⟩
        · rcases List.mem_map.1 h with ⟨c1, hc1, hb⟩
          rw [← hb]
          exact ⟨List.mem_cons_of_mem _ hc1, rfl⟩
      refine ⟨hbest_shape.1, ?_⟩
      rw [← hbest_shape.2]
      rw [hl] at hc
      rcases List.mem_cons.1 hc with hceq | hcs
      · subst hceq
        rcases hmem with h | h
        · rw [h]
        · obtain ⟨-, hself, -⟩ := foldl_max_spec
            ((cs.map (fun c => (c, pyVariance (categoryCounts md c)))))
            (c, pyVariance (categoryCounts md c))
          exact hself
      · exact hall (c, pyVariance (categoryCounts md c))
          (List.mem_map.2 ⟨c, hcs, rfl⟩)
  · have hall : allCategories volatileExample = ["Other", "Phishing", "Ransomware"] := by
      decide
    have hc1 : categoryCounts volatileExample "Other" = [2, 0, 0] := by decide
    have hc2 : categoryCounts volatileExample "Phishing" = [0, 8, 0] := by decide
    have hc3 : categoryCounts volatileExample "Ransomware" = [3, 0, 2] := by decide
    have hvar : categoryVariances volatileExample =
        [("Other", pyVariance [2, 0, 0]), ("Phishing", pyVariance [0, 8, 0]),
         ("Ransomware", pyVariance [3, 0, 2])] := by
      rw [categoryVariances_eq _ (by decide), hall]
      simp [hc1, hc2, hc3]
    have hlt1 : pyVariance [2, 0, 0] < pyVariance [0, 8, 0] := by
      norm_num [pyVariance]
    have hlt2 : ¬ pyVariance [0, 8, 0] < pyVariance [3, 0, 2] := by
      norm_num [pyVariance]
    have hmax : pyMaxBySnd [("Other", pyVariance [2, 0, 0]),
        ("Phishing", pyVariance [0, 8, 0]), ("Ransomware", pyVariance [3, 0, 2])] =
        some ("Phishing", pyVariance [0, 8, 0]) := by
      simp only [pyMaxBySnd, List.foldl_cons, List.foldl_nil]
      rw [if_pos hlt1, if_neg hlt2]
    unfold calculate_most_volatile_category
    rw [if_neg (by decide : ¬ volatileExample.length < 2), hvar, hmax]

/-- Witness for C4 at concrete inputs: a one-month input is insufficient, and
on the spec's example the selected category has variance at least that of
Ransomware. -/
theorem most_volatile_spec_witness :
    calculate_most_volatile_category [("2025-01", (⟨[], 0, []⟩ : MonthBucket))] =
      "insufficient_data" ∧
    (calculate_most_volatile_category volatileExample ∈ allCategories volatileExample ∧
      pyVariance (categoryCounts volatileExample "Ransomware") ≤
        pyVariance (categoryCounts volatileExample
          (calculate_most_volatile_category volatileExample))) :=
  ⟨most_volatile_spec.1 [("2025-01", (⟨[], 0, []⟩ : MonthBucket))] (by decide),
   most_volatile_spec.2.2.1 volatileExample "Ransomware" (by decide) (by decide)⟩

/-! ### Helper lemmas for C7 (idempotence of `convert_to_ascii`) -/

/-- A successful prefix test pins the key to the head of the text. -/
theorem isPrefixList_take :
    ∀ (key t : List Char), isPrefixList key t = true → key = t.take key.length := by
  intro key
  induction key with
  | nil => intro t _; rfl
  | cons a as ih =>
    intro t hp
    cases t with
    | nil => exact absurd hp (by simp [isPrefixList])
    | cons b bs =>
      rw [isPrefixList, Bool.and_eq_true] at hp
      obtain ⟨hab, hrec⟩ := hp
      have hab' : a = b := by simpa using hab
      rw [List.length_cons, List.take_succ_cons, hab', ← ih bs hrec]

/-- Every character of a matched key occurs in the text. -/
theorem mem_of_isPrefixList {key t : List Char} (hp : isPrefixList key t = true) :
    ∀ x ∈ key, x ∈ t := by
  intro x hx
  rw [isPrefixList_take key t hp] at hx
  exact List.mem_of_mem_take hx

/-- Skip mode just discards the skipped characters. -/
theorem replaceAllAux_skip_drop (key val : List Char) :
    ∀ (skip : Nat) (t : List Char),
      replaceAllAux key val skip t = replaceAllAux key val 0 (t.drop skip) := by
  intro skip
  induction skip with
  | zero => intro t; rw [List.drop_zero]
  | succ s ih =>
    intro t
    cases t with
    | nil => rw [List.drop_nil]; rfl
    | cons c rest =>
      rw [List.drop_succ_cons, ← ih rest]
      rfl

/-- Replacing a non-empty key by itself reconstructs the text. -/
theorem replaceAllAux_self (key : List Char) (hk : key ≠ []) :
    ∀ t, replaceAllAux key key 0 t = t := by
  have H : ∀ (n : Nat) (t : List Char), t.length ≤ n → replaceAllAux key key 0 t = t := by
    intro n
    induction n with
    | zero =>
      intro t ht
      rw [List.length_eq_zero.1 (Nat.le_zero.1 ht)]
      rfl
    | succ n ih =>
      intro t ht
      cases t with
      | nil => rfl
      | cons c rest =>
        by_cases hp : isPrefixList key (c :: rest) = true
        · rw [replaceAllAux, if_pos hp, replaceAllAux_skip_drop]
          obtain ⟨k, ks, rfl⟩ : ∃ k ks, key = k :: ks := by
            cases key with
            | nil => exact absurd rfl hk
            | cons k ks => exact ⟨k, ks, rfl⟩
          have hkey := isPrefixList_take _ _ hp
          rw [List.length_cons, List.take_succ_cons] at hkey
          rw [ih (rest.drop ((k :: ks).length - 1))
            (by rw [List.length_drop]; rw [List.length_cons] at ht; omega)]
          rw [List.length_cons, Nat.add_sub_cancel, hkey, List.cons_append]
          rw [List.take_append_drop]
        · rw [replaceAllAux, if_neg hp,
            ih rest (by rw [List.length_cons] at ht; omega)]
  intro t
  exact H t.length t (le_refl _)

/-- `str.replace(key, key)` is the identity. -/
theorem replaceAll_self (key s : List Char) : replaceAll key key s = s := by
  unfold replaceAll
  by_cases hk : key = []
  · rw [if_pos hk]
  · rw [if_neg hk, replaceAllAux_self key hk]

/-- If some character of the key never occurs in the text, the key never
matches and the replacement is the identity. -/
theorem replaceAllAux_no_occ (key val : List Char) :
    ∀ t : List Char, (∃ x ∈ key, x ∉ t) → replaceAllAux key val 0 t = t := by
  intro t
  induction t with
  | nil => intro _; rfl
  | cons c rest ih =>
    rintro ⟨x, hxk, hxt⟩
    have hp : ¬ isPrefixList key (c :: rest) = true := by
      intro hp
      exact hxt (mem_of_isPrefixList hp x hxk)
    rw [replaceAllAux, if_neg hp,
      ih ⟨x, hxk, fun h => hxt (List.mem_cons_of_mem _ h)⟩]

/-- Wrapper of the previous lemma for `replaceAll`. -/
theorem replaceAll_no_occ (key val s : List Char) (h : ∃ x ∈ key, x ∉ s) :
    replaceAll key val s = s := by
  unfold replaceAll
  by_cases hk : key = []
  · rw [if_pos hk]
  · rw [if_neg hk, replaceAllAux_no_occ key val s h]

/-- Characters of a replacement result come from the text or the inserted
value. -/
theorem replaceAllAux_subset (key val : List Char) :
    ∀ (t : List Char) (skip : Nat) (c : Char),
      c ∈ replaceAllAux key val skip t → c ∈ t ∨ c ∈ val := by
  intro t
  induction t with
  | nil =>
    intro skip c h
    rw [replaceAllAux] at h
    cases h
  | cons d rest ih =>
    intro skip c h
    cases skip with
    | succ s =>
      rw [replaceAllAux] at h
      rcases ih s c h with h | h
      · exact Or.inl (List.mem_cons_of_mem _ h)
      · exact Or.inr h
    | zero =>
      by_cases hp : isPrefixList key (d :: rest) = true
      · rw [replaceAllAux, if_pos hp] at h
        rcases List.mem_append.1 h with h | h
        · exact Or.inr h
        · rw [replaceAllAux_skip_drop] at h
          rcases ih _ c ((replaceAllAux_skip_drop key val _ rest).symm ▸ h) with h | h
          · exact Or.inl (List.mem_cons_of_mem _ h)
          · exact Or.inr h
      · rw [replaceAllAux, if_neg hp] at h
        rcases List.mem_cons.1 h with h | h
        · exact Or.inl (h ▸ List.mem_cons_self _ _)
        · rcases ih 0 c h with h | h
          · exact Or.inl (List.mem_cons_of_mem _ h)
          · exact Or.inr h

/-- Wrapper of the previous lemma for `replaceAll`. -/
theorem replaceAll_subset (key val s : List Char) (c : Char)
    (h : c ∈ replaceAll key val s) : c ∈ s ∨ c ∈ val := by
  unfold replaceAll at h
  by_cases hk : key = []
  · rw [if_pos hk] at h; exact Or.inl h
  · rw [if_neg hk] at h; exact replaceAllAux_subset key val s 0 c h

/-- A character property holding on the text and on every replacement value
holds after the whole replacement chain. -/
theorem foldl_replace_pred (P : Char → Prop) :
    ∀ (entries : List (List Char × List Char)) (s : List Char),
      (∀ c ∈ s, P c) → (∀ kv ∈ entries, ∀ c ∈ kv.2, P c) →
      ∀ c ∈ entries.foldl (fun t kv => replaceAll kv.1 kv.2 t) s, P c := by
  intro entries
  induction entries with
  | nil => intro s hs _ c hc; exact hs c (by simpa using hc)
  | cons kv rest ih =>
    intro s hs hv c hc
    rw [List.foldl_cons] at hc
    refine ih (replaceAll kv.1 kv.2 s) ?_ (fun kv h => hv kv (List.mem_cons_of_mem _ h)) c hc
    intro d hd
    rcases replaceAll_subset kv.1 kv.2 s d hd with h | h
    · exact hs d h
    · exact hv kv (List.mem_cons_self _ _) d h

/-- The replacement chain keeps text ASCII (every replacement value in the
table is ASCII). -/
theorem applyReplacements_ascii (s : List Char) (hs : ∀ c ∈ s, c.toNat < 128) :
    ∀ c ∈ applyReplacements s, c.toNat < 128 := by
  refine foldl_replace_pred (fun c => c.toNat < 128) pyReplacements s hs ?_
  decide

/-- If every step of the chain fixes the text, the chain fixes the text. -/
theorem foldl_replace_id :
    ∀ (entries : List (List Char × List Char)) (t : List Char),
      (∀ kv ∈ entries, replaceAll kv.1 kv.2 t = t) →
      entries.foldl (fun s kv => replaceAll kv.1 kv.2 s) t = t := by
  intro entries
  induction entries with
  | nil => intro t _; rfl
  | cons kv rest ih =>
    intro t h
    rw [List.foldl_cons, h kv (List.mem_cons_self _ _)]
    exact ih t (fun kv hm => h kv (List.mem_cons_of_mem _ hm))

/-- On newline-free ASCII text the whole replacement table acts as the
identity: the quote entry replaces `"` by itself, the triple-quote artifact
key contains a newline, and every other key contains a non-ASCII character. -/
theorem applyReplacements_id (t : List Char)
    (hnl : ('\n' : Char) ∉ t) (hascii : ∀ c ∈ t, c.toNat < 128) :
    applyReplacements t = t := by
  unfold applyReplacements
  refine foldl_replace_id pyReplacements t ?_
  intro kv hkv
  simp only [pyReplacements, List.mem_cons, List.not_mem_nil, or_false] at hkv
  rcases hkv with rfl | rfl | rfl | rfl | rfl | rfl | rfl | rfl | rfl | rfl
  · exact replaceAll_self _ _
  · exact replaceAll_no_occ _ _ _ ⟨'\n', by decide, hnl⟩
  · exact replaceAll_no_occ _ _ _
      ⟨'–', by decide, fun h => absurd (hascii _ h) (by decide)⟩
  · exact replaceAll_no_occ _ _ _
      ⟨'—', by decide, fun h => absurd (hascii _ h) (by decide)⟩
  · exact replaceAll_no_occ _ _ _
      ⟨'…', by decide, fun h => absurd (hascii _ h) (by decide)⟩
  · exact replaceAll_no_occ _ _ _
      ⟨'®', by decide, fun h => absurd (hascii _ h) (by decide)⟩
  · exact replaceAll_no_occ _ _ _
      ⟨'©', by decide, fun h => absurd (hascii _ h) (by decide)⟩
  · exact replaceAll_no_occ _ _ _
      ⟨'™', by decide, fun h => absurd (hascii _ h) (by decide)⟩
  · exact replaceAll_no_occ _ _ _
      ⟨'°', by decide, fun h => absurd (hascii _ h) (by decide)⟩
  · exact replaceAll_no_occ _ _ _
      ⟨'±', by decide, fun h => absurd (hascii _ h) (by decide)⟩

/-- Words produced by `str.split()` are non-empty, whitespace-free, and drawn
from the input (or the running accumulator). -/
theorem splitWsAux_mem :
    ∀ (u acc : List Char), (∀ c ∈ acc, pyIsSpaceAscii c = false) →
      ∀ w ∈ splitWsAux u acc,
        w ≠ [] ∧ ∀ c ∈ w, pyIsSpaceAscii c = false ∧ (c ∈ u ∨ c ∈ acc) := by
  intro u
  induction u with
  | nil =>
    intro acc hacc w hw
    rw [splitWsAux] at hw
    by_cases ha : acc = []
    · rw [if_pos ha] at hw
      cases hw
    · rw [if_neg ha] at hw
      rcases List.mem_singleton.1 hw with rfl
      refine ⟨by simpa using ha, ?_⟩
      intro c hc
      rw [List.mem_reverse] at hc
      exact ⟨hacc c hc, Or.inr hc⟩
  | cons d rest ih =>
    intro acc hacc w hw
    rw [splitWsAux] at hw
    by_cases hd : pyIsSpaceAscii d = true
    · rw [if_pos hd] at hw
      by_cases ha : acc = []
      · rw [if_pos ha] at hw
        obtain ⟨h1, h2⟩ := ih [] (by simp) w hw
        refine ⟨h1, fun c hc => ⟨(h2 c hc).1, ?_⟩⟩
        rcases (h2 c hc).2 with h | h
        · exact Or.inl (List.mem_cons_of_mem _ h)
        · cases h
      · rw [if_neg ha] at hw
        rcases List.mem_cons.1 hw with rfl | hw
        · refine ⟨by simpa using ha, ?_⟩
          intro c hc
          rw [List.mem_reverse] at hc
          exact ⟨hacc c hc, Or.inr hc⟩
        · obtain ⟨h1, h2⟩ := ih [] (by simp) w hw
          refine ⟨h1, fun c hc => ⟨(h2 c hc).1, ?_⟩⟩
          rcases (h2 c hc).2 with h | h
          · exact Or.inl (List.mem_cons_of_mem _ h)
          · cases h
    · rw [if_neg hd] at hw
      have hacc' : ∀ c ∈ d :: acc, pyIsSpaceAscii c = false := by
        intro c hc
        rcases List.mem_cons.1 hc with rfl | hc
        · simpa using hd
        · exact hacc c hc
      obtain ⟨h1, h2⟩ := ih (d :: acc) hacc' w hw
      refine ⟨h1, fun c hc => ?_⟩
      obtain ⟨hsp, hmem⟩ := h2 c hc
      refine ⟨hsp, ?_⟩
      rcases hmem with h | h
      · exact Or.inl (List.mem_cons_of_mem _ h)
      · rcases List.mem_cons.1 h with rfl | h
        · exact Or.inl (List.mem_cons_self _ _)
        · exact Or.inr h

/-- Scanning a whitespace-free chunk just moves it into the accumulator. -/
theorem splitWsAux_append :
    ∀ (w u acc : List Char), (∀ c ∈ w, pyIsSpaceAscii c = false) →
      splitWsAux (w ++ u) acc = splitWsAux u (w.reverse ++ acc) := by
  intro w
  induction w with
  | nil => intro u acc _; rfl
  | cons d w' ih =>
    intro u acc hw
    have hd : ¬ pyIsSpaceAscii d = true := by
      simpa using hw d (List.mem_cons_self _ _)
    rw [List.cons_append, splitWsAux, if_neg hd,
      ih u (d :: acc) (fun c hc => hw c (List.mem_cons_of_mem _ hc))]
    rw [List.reverse_cons, List.append_assoc]
    rfl

/-- `str.split()` inverts `' '.join` on lists of non-empty whitespace-free
words. -/
theorem pySplitWs_joinSpace :
    ∀ ws : List (List Char),
      (∀ w ∈ ws, w ≠ [] ∧ ∀ c ∈ w, pyIsSpaceAscii c = false) →
      pySplitWs (pyJoinSpace ws) = ws := by
  intro ws
  induction ws with
  | nil => intro _; rfl
  | cons w rest ih =>
    intro h
    obtain ⟨hw_ne, hw_sp⟩ := h w (List.mem_cons_self _ _)
    cases rest with
    | nil =>
      have hj : pyJoinSpace [w] = w := rfl
      rw [hj]
      unfold pySplitWs
      have h2 := splitWsAux_append w [] [] hw_sp
      rw [List.append_nil] at h2
      rw [h2, splitWsAux, List.append_nil,
        if_neg (show ¬ w.reverse = [] by simpa using hw_ne), List.reverse_reverse]
    | cons w2 rest2 =>
      have hjoin : pyJoinSpace (w :: w2 :: rest2) = w ++ ' ' :: pyJoinSpace (w2 :: rest2) := by
        rfl
      unfold pySplitWs
      rw [hjoin, splitWsAux_append w (' ' :: pyJoinSpace (w2 :: rest2)) [] hw_sp]
      rw [splitWsAux, if_pos (by decide : pyIsSpaceAscii ' ' = true)]
      rw [if_neg (by simpa using hw_ne), List.append_nil, List.reverse_reverse]
      rw [show splitWsAux (pyJoinSpace (w2 :: rest2)) [] = pySplitWs (pyJoinSpace (w2 :: rest2)) from rfl]
      rw [ih (fun v hv => h v (List.mem_cons_of_mem _ hv))]

/-- Characters of a joined word list are the separator space or characters of
some word. -/
theorem pyJoinSpace_mem :
    ∀ (ws : List (List Char)) (c : Char), c ∈ pyJoinSpace ws →
      c = ' ' ∨ ∃ w ∈ ws, c ∈ w := by
  intro ws
  induction ws with
  | nil => intro c hc; cases hc
  | cons w rest ih =>
    intro c hc
    cases rest with
    | nil =>
      right
      exact ⟨w, List.mem_cons_self _ _, by simpa using hc⟩
    | cons w2 rest2 =>
      rw [show pyJoinSpace (w :: w2 :: rest2) = w ++ ' ' :: pyJoinSpace (w2 :: rest2) from rfl] at hc
      rcases List.mem_append.1 hc with h | h
      · exact Or.inr ⟨w, List.mem_cons_self _ _, h⟩
      · rcases List.mem_cons.1 h with rfl | h
        · exact Or.inl rfl
        · rcases ih c h with h | ⟨v, hv, hcv⟩
          · exact Or.inl h
          · exact Or.inr ⟨v, List.mem_cons_of_mem _ hv, hcv⟩

/-- The normal form produced by `convert_to_ascii` is a fixed point of
`convert_to_ascii`: joined split-words of ASCII printable text pass every
stage unchanged. -/
theorem convert_fixed_point (u : List Char)
    (hu_ascii : ∀ c ∈ u, c.toNat < 128)
    (hu_keep : ∀ c ∈ u, pyKeepPrintable c = true) :
    convert_to_ascii (pyJoinSpace (pySplitWs u)) = pyJoinSpace (pySplitWs u) := by
  by_cases ht : pyJoinSpace (pySplitWs u) = []
  · rw [ht]
    rfl
  · have hws : ∀ w ∈ pySplitWs u, w ≠ [] ∧ ∀ c ∈ w, pyIsSpaceAscii c = false ∧ c ∈ u := by
      intro w hw
      obtain ⟨h1, h2⟩ := splitWsAux_mem u [] (by simp) w hw
      refine ⟨h1, fun c hc => ⟨(h2 c hc).1, ?_⟩⟩
      rcases (h2 c hc).2 with h | h
      · exact h
      · cases h
    have ht_chars : ∀ c ∈ pyJoinSpace (pySplitWs u),
        c = ' ' ∨ (pyIsSpaceAscii c = false ∧ c ∈ u) := by
      intro c hc
      rcases pyJoinSpace_mem (pySplitWs u) c hc with h | ⟨w, hw, hcw⟩
      · exact Or.inl h
      · exact Or.inr ((hws w hw).2 c hcw)
    have ht_ascii : ∀ c ∈ pyJoinSpace (pySplitWs u), c.toNat < 128 := by
      intro c hc
      rcases ht_chars c hc with rfl | ⟨-, hcu⟩
      · decide
      · exact hu_ascii c hcu
    have ht_keep : ∀ c ∈ pyJoinSpace (pySplitWs u), pyKeepPrintable c = true := by
      intro c hc
      rcases ht_chars c hc with rfl | ⟨-, hcu⟩
      · decide
      · exact hu_keep c hcu
    have ht_nl : ('\n' : Char) ∉ pyJoinSpace (pySplitWs u) := by
      intro h
      rcases ht_chars _ h with h | ⟨hsp, -⟩
      · exact absurd h (by decide)
      · exact absurd hsp (by decide)
    have hA : (pyJoinSpace (pySplitWs u)).filter pyIsAsciiChar = pyJoinSpace (pySplitWs u) := by
      rw [List.filter_eq_self]
      intro c hc
      have := ht_ascii c hc
      simpa [pyIsAsciiChar] using this
    have hR : applyReplacements (pyJoinSpace (pySplitWs u)) = pyJoinSpace (pySplitWs u) :=
      applyReplacements_id _ ht_nl ht_ascii
    have hK : (pyJoinSpace (pySplitWs u)).filter pyKeepPrintable = pyJoinSpace (pySplitWs u) := by
      rw [List.filter_eq_self]
      exact ht_keep
    have hW : pySplitWs (pyJoinSpace (pySplitWs u)) = pySplitWs u :=
      pySplitWs_joinSpace (pySplitWs u)
        (fun w hw => ⟨(hws w hw).1, fun c hc => ((hws w hw).2 c hc).1⟩)
    unfold convert_to_ascii
    rw [if_neg ht, hA, hR, hK, hW]

/-- C7: ASCII normalization is idempotent — for every input,
`convert_to_ascii (convert_to_ascii x) = convert_to_ascii x`. -/
theorem convert_to_ascii_idempotent (s : List Char) :
    convert_to_ascii (convert_to_ascii s) = convert_to_ascii s := by
  by_cases hs : s = []
  · subst hs
    rfl
  · have hfs : convert_to_ascii s =
        pyJoinSpace (pySplitWs
          ((applyReplacements (s.filter pyIsAsciiChar)).filter pyKeepPrintable)) := by
      unfold convert_to_ascii
      rw [if_neg hs]
    rw [hfs]
    refine convert_fixed_point _ ?_ ?_
    · intro c hc
      refine applyReplacements_ascii (s.filter pyIsAsciiChar) ?_ c (List.mem_of_mem_filter hc)
      intro d hd
      have := List.of_mem_filter hd
      simpa [pyIsAsciiChar] using this
    · intro c hc
      exact List.of_mem_filter hc

end Dashboard
